import Mathlib

/-!
Verification of the `eventual` reactive/actor framework (Python).

Shallow embedding of the parts of the source the claims are about:

* the port graph (`World`): Event/Value/Sync port instances and their
  `attach` methods from `src/eventual/__init__.py`, with handler
  invocations recorded in per-port logs;
* the round-robin mutex coordinator (`MState`): the coordinator-side
  state of `RoundRobinMutex` from `src/eventual/actors.py`, with each
  child slot carrying the two ends of its Sync pair (`cw` = the
  coordinator-side `child.mutex.want`, `rw` = the requester-side
  `want`, read by the scan as `child.mutex.peer.want`);
* the interval timer expiry step (`onExpire`) from `IntervalTimer._on_expire`.

Python exceptions are modelled as an error code returned next to the
(possibly unchanged) state; in the source every `raise` in an attach
method happens before any mutation, which the definitions mirror.
-/

/-- updAt l k f replaces the k-th element a of l by f a (out-of-range: no-op).
It models an in-place field assignment on the k-th object of a Python list. -/
def updAt {α : Type} : List α → Nat → (α → α) → List α
  | [], _, _ => []
  | a :: t, 0, f => f a :: t
  | a :: t, k+1, f => a :: updAt t k f

/-- removeAt l k deletes the k-th element of l, modelling Python list.pop(k). -/
def removeAt {α : Type} : List α → Nat → List α
  | [], _ => []
  | _ :: t, 0 => t
  | a :: t, k+1 => a :: removeAt t k

/-! ## Port-graph model (`src/eventual/__init__.py`) -/

/-- SyncP models one `SyncInstance`: `peer` is the index of the peer sync
port (None when unattached), `want` the local boolean, and `log` records,
in order, every value with which the owning actor's handler `f` has been
invoked. Freshly constructed ports have `peer = None`, `want = False`. -/
structure SyncP where
  peer : Option Nat
  want : Bool
  log : List Bool
deriving DecidableEq, Repr, Inhabited

/-- EvIn models one `EventInputInstance`: `up` is the index of the upstream
event output, if attached. -/
structure EvIn where
  up : Option Nat
deriving DecidableEq, Repr, Inhabited

/-- EvOut models one `EventOutputInstance`: `down` is the ordered list of
attached event-input indices. -/
structure EvOut where
  down : List Nat
deriving DecidableEq, Repr, Inhabited

/-- ValIn models one `ValueInputInstance`: `up` is the upstream value-output
index, if attached; `log` records every value delivered to the handler. -/
structure ValIn where
  up : Option Nat
  log : List Int
deriving DecidableEq, Repr, Inhabited

/-- ValOut models one `ValueOutputInstance`: `val` is the stored current
value and `down` the ordered list of attached value-input indices. -/
structure ValOut where
  val : Int
  down : List Nat
deriving DecidableEq, Repr, Inhabited

/-- World is the whole port graph: one list per port class, ports addressed
by their index in their list. -/
structure World where
  evOuts : List EvOut
  evIns : List EvIn
  valOuts : List ValOut
  valIns : List ValIn
  syncs : List SyncP
deriving DecidableEq, Repr

/-- PortRef names a port of the graph, tagged with its runtime class
(the tag plays the role of Python's isinstance checks). -/
inductive PortRef : Type
  | evOut (i : Nat)
  | evIn (i : Nat)
  | valOut (i : Nat)
  | valIn (i : Nat)
  | syncP (i : Nat)
deriving DecidableEq, Repr

/-- isEvIn t is true when t refers to an event input. -/
def isEvIn : PortRef → Bool
  | .evIn _ => true
  | _ => false

/-- isValIn t is true when t refers to a value input. -/
def isValIn : PortRef → Bool
  | .valIn _ => true
  | _ => false

/-- isSyncP t is true when t refers to a sync port. -/
def isSyncP : PortRef → Bool
  | .syncP _ => true
  | _ => false

/-- AttachErr is the error raised by an attach method: `kindMismatch` for
the two raise sites guarded by an isinstance check (the source builds the
message with an out-of-scope name `up`, so at runtime the raised exception
is a NameError, but control still aborts at that point with nothing
mutated), `alreadyConnected` for the raise in `SyncInstance.attach` when
`self.peer is not None`. -/
inductive AttachErr : Type
  | kindMismatch
  | alreadyConnected
deriving DecidableEq, Repr

/-- evOutAttach models `EventOutputInstance.attach(down)`: on an event
input it sets `down.up = self` and appends `down` to `self.down`; on any
other port class the isinstance check fails before any mutation.
No data is pushed. -/
def evOutAttach (w : World) (o : Nat) (t : PortRef) : Option AttachErr × World :=
  match t with
  | .evIn i =>
      (none, { w with
        evIns := updAt w.evIns i (fun p => { p with up := some o }),
        evOuts := updAt w.evOuts o (fun p => { p with down := p.down ++ [i] }) })
  | _ => (some .kindMismatch, w)

/-- valOutAttach models `ValueOutputInstance.attach(down)`: on a value
input it sets `down.up = self`, appends `down` to `self.down`, then calls
`down(self.val)`, which invokes the input's handler with the stored value;
on any other port class the isinstance check fails before any mutation.
Note the source performs no check at all on `down.up`: an already-wired
value input is silently re-pointed at the new output. -/
def valOutAttach (w : World) (o : Nat) (t : PortRef) : Option AttachErr × World :=
  match t with
  | .valIn i =>
      let v := (w.valOuts.getD o default).val
      (none, { w with
        valIns := updAt w.valIns i (fun p => { p with up := some o, log := p.log ++ [v] }),
        valOuts := updAt w.valOuts o (fun p => { p with down := p.down ++ [i] }) })
  | _ => (some .kindMismatch, w)

/-- syncCall models `SyncInstance.__call__(want)` on port x: set
`self.want = want`, then, when a peer is attached, invoke the peer's
handler (`self.peer.f(self.peer.actor, want)`) with that value, recorded
in the peer's log. -/
def syncCall (w : World) (x : Nat) (b : Bool) : World :=
  let w1 : World := { w with syncs := updAt w.syncs x (fun p => { p with want := b }) }
  match (w1.syncs.getD x default).peer with
  | some q => { w1 with syncs := updAt w1.syncs q (fun p => { p with log := p.log ++ [b] }) }
  | none => w1

/-- syncAttach models `SyncInstance.attach(peer)` on port s: raise when
`self.peer is not None`, raise when the target is not a sync port, else
set `peer.peer = self`, `self.peer = peer`, then run the handshake
`peer(self.want); self(peer.want)`. Note the target's own `peer` field is
never checked: an already-connected target is silently re-pointed. -/
def syncAttach (w : World) (s : Nat) (t : PortRef) : Option AttachErr × World :=
  if (w.syncs.getD s default).peer.isSome then
    (some .alreadyConnected, w)
  else
    match t with
    | .syncP p =>
        let w1 : World := { w with syncs := updAt w.syncs p (fun q => { q with peer := some s }) }
        let w2 : World := { w1 with syncs := updAt w1.syncs s (fun q => { q with peer := some p }) }
        let w3 := syncCall w2 p ((w2.syncs.getD s default).want)
        let w4 := syncCall w3 s ((w3.syncs.getD p default).want)
        (none, w4)
    | _ => (some .kindMismatch, w)

/-- syncVal models the `SyncInstance.val` property: `PortNotConnected`
(here: none) when unattached, else `self.want and self.peer.want` — the
granted value of the port. -/
def syncVal (w : World) (x : Nat) : Option Bool :=
  match (w.syncs.getD x default).peer with
  | none => none
  | some q => some ((w.syncs.getD x default).want && (w.syncs.getD q default).want)

/-! ## RoundRobinMutex coordinator model (`src/eventual/actors.py`)

Each child slot carries the two wants of its Sync pair: `cw` is the
coordinator-side `child.mutex.want` (true exactly while the slot holds
the lock) and `rw` is the requester-side `want` (`child.mutex.peer.want`,
what the release scan reads). Requester actors' handlers are external
no-ops (`MutexTester.lock` ignores its value), so a transition of the
coordinator is fully described by these fields plus `pos` and the value
stored in the `locked` ValueOutput. Distinct requester ports are assumed
(one external requester per slot), matching `children.index(child)`
returning the slot's position. -/

/-- Slot is one `_RoundRobinMutexChild`: `cw` its sync port's local want,
`rw` its peer's (the requester's) want. A fresh slot wired by
`attach_child` has both false (the handshake overwrites the requester's
want with the fresh slot's `False`). -/
structure Slot where
  cw : Bool
  rw : Bool
deriving DecidableEq, Repr, Inhabited

/-- MState is the coordinator state of one `RoundRobinMutex`:
`children` the ordered slot list, `pos` the index field, `locked` the
value stored in the `locked` ValueOutput. -/
structure MState where
  children : List Slot
  pos : Nat
  locked : Bool
deriving DecidableEq, Repr

/-- initState is a freshly constructed `RoundRobinMutex`: no children,
`pos = 0` (class attribute), `locked = ValueOutput(False)`. -/
def initState : MState := ⟨[], 0, false⟩

/-- wrapSucc n p is `pos += 1` followed by `if pos == len(children): pos = 0`,
the increment-and-wrap at the top of the release scan loop. -/
def wrapSucc (n p : Nat) : Nat := if p + 1 = n then 0 else p + 1

/-- scanAux models the `while True` release scan of `RoundRobinMutex.mutex`:
increment `pos`, wrap at `len(children)`, unlock and stop on returning to
the releasing slot's index i, grant (set the slot's coordinator-side want
via `child.mutex(True)`) and stop on the first slot whose requester want
(`mutex.peer.want`) is true. The loop always breaks within
`len(children)` iterations, which the callers pass as fuel. -/
def scanAux (i : Nat) : Nat → MState → MState
  | 0, s => s
  | fuel+1, s =>
      let p2 := wrapSucc s.children.length s.pos
      if p2 = i then
        { s with pos := p2, locked := false }
      else if (s.children.getD p2 default).rw then
        { s with pos := p2, children := updAt s.children p2 (fun c => { c with cw := true }) }
      else
        scanAux i fuel { s with pos := p2 }

/-- mutexHandler models `RoundRobinMutex.mutex(child, want)` where j is
`self.children.index(child)`: grant when `want and not self.locked.val`
(set `pos = i`, `locked(True)`, `child.mutex(True)`); release when
`not want and child.mutex.want` (`child.mutex(False)` then the scan);
otherwise no state change. -/
def mutexHandler (s : MState) (j : Nat) (w : Bool) : MState :=
  if w && !s.locked then
    { children := updAt s.children j (fun c => { c with cw := true }), pos := j, locked := true }
  else if !w && (s.children.getD j default).cw then
    let s1 : MState := { s with children := updAt s.children j (fun c => { c with cw := false }) }
    scanAux j s1.children.length s1
  else
    s

/-- pushWant models the external requester of slot j calling its sync port
with w: the port sets its own want (`rw`) to w, then invokes the wired
`_RoundRobinMutexChild.mutex` handler, which forwards to
`RoundRobinMutex.mutex(child, w)`. -/
def pushWant (s : MState) (j : Nat) (w : Bool) : MState :=
  mutexHandler { s with children := updAt s.children j (fun c => { c with rw := w }) } j w

/-- attachChild models `RoundRobinMutex.attach_child(mutex=requester)`:
append a fresh child, then attach its sync port to the requester's. The
handshake overwrites the requester's want with the fresh slot's `False`
and invokes the coordinator handler once with `False` (a no-op on a fresh
slot), so the new slot starts with both wants false whatever the
requester wanted before. -/
def attachChild (s : MState) : MState :=
  let s1 : MState := { s with children := s.children ++ [⟨false, false⟩] }
  mutexHandler s1 s.children.length false

/-- detachChild models detaching slot j's sync pair, which runs
`RoundRobinMutex.after_detach_child(child)`: when the slot holds the lock
(`self.locked.val and child.mutex.want`), first run the release
`self.mutex(child, False)` (the requester-side want is not touched: the
pair is already severed); then `children.pop(i)`, decrement `pos` when it
was beyond i, and wrap it to 0 when it equals the new length. -/
def detachChild (s : MState) (j : Nat) : MState :=
  let s1 := if s.locked && (s.children.getD j default).cw then mutexHandler s j false else s
  let c2 := removeAt s1.children j
  let p2 := if j < s1.pos then s1.pos - 1 else s1.pos
  { children := c2, pos := if p2 = c2.length then 0 else p2, locked := s1.locked }

/-- Step is one coordinator operation: an `attach_child`, a want push by
the requester of a wired slot, or a detach of a wired slot. -/
inductive Step : MState → MState → Prop
  | attach (s : MState) : Step s (attachChild s)
  | push (s : MState) (j : Nat) (w : Bool) (h : j < s.children.length) : Step s (pushWant s j w)
  | detach (s : MState) (j : Nat) (h : j < s.children.length) : Step s (detachChild s j)

/-- Reachable states: those obtained from a fresh coordinator by any
sequence of steps. -/
inductive Reachable : MState → Prop
  | init : Reachable initState
  | step {s t : MState} : Reachable s → Step s t → Reachable t

/-- posInv is the invariant named by the spec: `pos = 0` on an empty
coordinator, `pos < len(children)` otherwise, and while `locked` the slot
at `pos` is exactly the unique slot whose coordinator-side want is true
(the current holder). -/
def posInv (s : MState) : Prop :=
  (s.children.length = 0 → s.pos = 0) ∧
  (0 < s.children.length → s.pos < s.children.length) ∧
  (s.locked = true → 0 < s.children.length ∧
    ∀ k < s.children.length, ((s.children.getD k default).cw = true ↔ k = s.pos))

/-- MInv strengthens posInv with the fact that an unlocked coordinator has
no coordinator-side want set; this is the inductive invariant. -/
def MInv (s : MState) : Prop :=
  posInv s ∧
  (s.locked = false → ∀ k < s.children.length, (s.children.getD k default).cw = false)

/-- atMostOneGranted says at most one slot's sync pair has both wants true,
i.e. at most one requester observes `granted`. -/
def atMostOneGranted (s : MState) : Prop :=
  ∀ j < s.children.length, ∀ k < s.children.length,
    ((s.children.getD j default).cw && (s.children.getD j default).rw) = true →
    ((s.children.getD k default).cw && (s.children.getD k default).rw) = true →
    j = k

/-- scanOrder n i is the sequence of indices the release scan of slot i
visits over n slots: i+1, i+2, ... wrapping around, ending back at i. -/
def scanOrder (n i : Nat) : List Nat :=
  (List.range n).map (fun t => (i + 1 + t) % n)

/-- nextHolder follows the spec's words for the release scan: the first
slot strictly after i in cyclic order whose requester want is true, or
none when the scan comes back around to i without finding a waiter. -/
def nextHolder (slots : List Slot) (i : Nat) : Option Nat :=
  match (scanOrder slots.length i).find? (fun k => k == i || (slots.getD k default).rw) with
  | some k => if k = i then none else some k
  | none => none

/-- releaseCleared s j is the slot list after releasing slot j: the
requester want and the slot's holding flag both cleared. -/
def releaseCleared (s : MState) (j : Nat) : List Slot :=
  updAt (updAt s.children j (fun c => { c with rw := false })) j (fun c => { c with cw := false })

/-- releaseSpec is the spec-side description of a requester's release push
on holding slot j: clear the requester want and the slot's holding flag,
then either grant the first waiting slot after j in cyclic order (moving
`pos` there) or, when the scan returns to j itself, clear `locked`. -/
def releaseSpec (s : MState) (j : Nat) : MState :=
  match nextHolder (releaseCleared s j) j with
  | some k => { children := updAt (releaseCleared s j) k (fun c => { c with cw := true }),
                pos := k, locked := true }
  | none => { children := releaseCleared s j, pos := j, locked := false }

/-! ## IntervalTimer expiry model (`IntervalTimer._on_expire`)

Monotonic clock readings are modelled as integers; the expiry step only
compares and adds them. -/

/-- ExpireOut is the observable outcome of one `_on_expire` call:
the updated `next_event_time_sec`, the timestamps carried by emitted
"late" events (`Event(None, now)`), the absolute times passed to
`scheduler.enterabs`, and the number of "trigger" events emitted. -/
structure ExpireOut where
  next : Int
  lateEv : List Int
  sched : List Int
  trig : Nat
deriving DecidableEq, Repr

/-- onExpire models `IntervalTimer._on_expire` given the current clock
`now`, the previous `next_event_time_sec` and the interval: advance the
expiry by one interval; when that is already strictly in the past, reset
it to `now + interval` and emit one late event carrying `now`; schedule
exactly one wake at the (possibly corrected) expiry; emit one trigger. -/
def onExpire (now next interval : Int) : ExpireOut :=
  let n1 := next + interval
  let rst := if n1 < now then (now + interval, [now]) else (n1, ([] : List Int))
  { next := rst.1, lateEv := rst.2, sched := [rst.1], trig := 1 }

/-! ## Concrete scenario states used by the claims -/

/-- demo2 is a coordinator with two freshly attached children. -/
def demo2 : MState := attachChild (attachChild initState)

/-- demo3 is a coordinator with three freshly attached children A, B, C
(slots 0, 1, 2), as in the fairness scenario. -/
def demo3 : MState := attachChild (attachChild (attachChild initState))

/-- reqAll3 is demo3 after the three requesters push want = true in order
A, B, C while the lock starts free: A is granted, B and C are pending. -/
def reqAll3 : MState := pushWant (pushWant (pushWant demo3 0 true) 1 true) 2 true

/-- freshPairW is a graph with exactly two freshly constructed sync ports. -/
def freshPairW : World := ⟨[], [], [], [], [⟨none, false, []⟩, ⟨none, false, []⟩]⟩

/-- wiredPairW is a graph with two sync ports already attached to each other. -/
def wiredPairW : World := ⟨[], [], [], [], [⟨some 1, false, []⟩, ⟨some 0, false, []⟩]⟩

/-- handshakeW is a two-sync-port graph: port 0 a fresh coordinator-side
slot port, port 1 a requester whose want is already true at attach time. -/
def handshakeW : World := ⟨[], [], [], [], [⟨none, false, []⟩, ⟨none, true, []⟩]⟩

/-- rewiredW is a graph where value input 0 is already wired to value
output 0 (current value 5), and a second value output holds 7. -/
def rewiredW : World := ⟨[], [], [⟨5, [0]⟩, ⟨7, []⟩], [⟨some 0, []⟩], []⟩

/-- mixedW is a graph with one unattached port of every kind. -/
def mixedW : World := ⟨[⟨[]⟩], [⟨none⟩], [⟨0, []⟩], [⟨none, []⟩], [⟨none, false, []⟩]⟩

instance posInvDecidable (s : MState) : Decidable (posInv s) := by
  unfold posInv; infer_instance

instance minvDecidable (s : MState) : Decidable (MInv s) := by
  unfold MInv; infer_instance

instance amogDecidable (s : MState) : Decidable (atMostOneGranted s) := by
  unfold atMostOneGranted; infer_instance

/-! ## Basic lemmas about the list helpers -/

theorem length_updAt {α : Type} (l : List α) (k : Nat) (f : α → α) :
    (updAt l k f).length = l.length := by
  induction l generalizing k with
  | nil => rfl
  | cons a t ih =>
    cases k with
    | zero => rfl
    | succ k => simp [updAt, ih]

theorem getD_updAt_self {α : Type} [Inhabited α] (l : List α) (k : Nat) (f : α → α)
    (h : k < l.length) :
    (updAt l k f).getD k default = f (l.getD k default) := by
  induction l generalizing k with
  | nil => simp at h
  | cons a t ih =>
    cases k with
    | zero => rfl
    | succ k => simpa [updAt] using ih k (by simpa using h)

theorem getD_updAt_ne {α : Type} [Inhabited α] (l : List α) (j k : Nat) (f : α → α)
    (h : j ≠ k) :
    (updAt l k f).getD j default = l.getD j default := by
  induction l generalizing j k with
  | nil => rfl
  | cons a t ih =>
    cases k with
    | zero =>
      cases j with
      | zero => exact absurd rfl h
      | succ j => simp [updAt]
    | succ k =>
      cases j with
      | zero => rfl
      | succ j => simpa [updAt] using ih j k (by omega)

theorem length_removeAt {α : Type} (l : List α) (k : Nat) (h : k < l.length) :
    (removeAt l k).length = l.length - 1 := by
  induction l generalizing k with
  | nil => simp at h
  | cons a t ih =>
    cases k with
    | zero => simp [removeAt]
    | succ k =>
      have ht : k < t.length := by simpa using h
      simp only [removeAt, List.length_cons, ih k ht]
      omega

theorem getD_removeAt_lt {α : Type} [Inhabited α] (l : List α) (j k : Nat) (h : j < k) :
    (removeAt l k).getD j default = l.getD j default := by
  induction l generalizing j k with
  | nil => rfl
  | cons a t ih =>
    cases k with
    | zero => omega
    | succ k =>
      cases j with
      | zero => rfl
      | succ j => simpa [removeAt] using ih j k (by omega)

theorem getD_removeAt_ge {α : Type} [Inhabited α] (l : List α) (j k : Nat) (h : k ≤ j) :
    (removeAt l k).getD j default = l.getD (j+1) default := by
  induction l generalizing j k with
  | nil => rfl
  | cons a t ih =>
    cases k with
    | zero => simp [removeAt]
    | succ k =>
      cases j with
      | zero => omega
      | succ j => simpa [removeAt] using ih j k (by omega)


theorem wrapSucc_mod (n p : Nat) (h : p < n) : wrapSucc n p = (p + 1) % n := by
  unfold wrapSucc
  by_cases hc : p + 1 = n
  · rw [if_pos hc, hc, Nat.mod_self]
  · rw [if_neg hc, Nat.mod_eq_of_lt (by omega)]

theorem scanAux_go : ∀ (m fuel : Nat) (s : MState) (i : Nat),
    i < s.children.length →
    s.pos < s.children.length →
    1 ≤ m → m ≤ fuel →
    (s.pos + m) % s.children.length = i →
    ∃ k, ((List.range m).map (fun t => (s.pos + 1 + t) % s.children.length)).find?
            (fun x => x == i || (s.children.getD x default).rw) = some k ∧
      scanAux i fuel s =
        (if k = i then { s with pos := i, locked := false }
         else { s with pos := k, children := updAt s.children k (fun c => { c with cw := true }) }) := by
  intro m
  induction m with
  | zero => intro fuel s i _ _ h1 _ _; omega
  | succ m ih =>
    intro fuel s i hi hpos _ hfuel hreach
    obtain ⟨fuel', rfl⟩ : ∃ f, fuel = f + 1 := ⟨fuel - 1, by omega⟩
    have hn0 : 0 < s.children.length := by omega
    have hp2 : wrapSucc s.children.length s.pos = (s.pos + 1) % s.children.length :=
      wrapSucc_mod _ _ hpos
    have hp2lt : (s.pos + 1) % s.children.length < s.children.length := Nat.mod_lt _ hn0
    rw [List.range_succ_eq_map, List.map_cons, List.map_map]
    have hhead : (s.pos + 1 + 0) % s.children.length = (s.pos + 1) % s.children.length := by
      norm_num
    rw [hhead]
    by_cases hA : (s.pos + 1) % s.children.length = i
    · refine ⟨i, ?_, ?_⟩
      · rw [List.find?_cons_of_pos _ (by rw [hA]; simp)]
        rw [hA]
      · rw [if_pos rfl]
        simp only [scanAux]
        rw [hp2, hA]
        simp
    · by_cases hB : (s.children.getD ((s.pos + 1) % s.children.length) default).rw = true
      · refine ⟨(s.pos + 1) % s.children.length, ?_, ?_⟩
        · rw [List.find?_cons_of_pos _ (by rw [hB]; simp)]
        · rw [if_neg hA]
          simp only [scanAux]
          rw [hp2, hB]
          simp [hA]
      · have hBf : (s.children.getD ((s.pos + 1) % s.children.length) default).rw = false := by
          revert hB; cases (s.children.getD ((s.pos + 1) % s.children.length) default).rw <;> simp
        have hm1 : 1 ≤ m := by
          rcases Nat.eq_zero_or_pos m with h0 | h1
          · subst h0; simp at hreach; exact absurd hreach hA
          · exact h1
        have hreach' : ((s.pos + 1) % s.children.length + m) % s.children.length = i := by
          rw [Nat.mod_add_mod]
          have : s.pos + 1 + m = s.pos + (m + 1) := by omega
          rw [this]; exact hreach
        obtain ⟨k, hfind, heq⟩ :=
          ih fuel' { s with pos := (s.pos + 1) % s.children.length } i hi hp2lt hm1 (by omega) hreach'
        simp only at hfind heq
        have hfun : (fun t => ((s.pos + 1) % s.children.length + 1 + t) % s.children.length)
            = (fun t => (s.pos + 1 + Nat.succ t) % s.children.length) := by
          funext t
          rw [Nat.add_assoc, Nat.mod_add_mod]
          congr 1
          omega
        refine ⟨k, ?_, ?_⟩
        · rw [List.find?_cons_of_neg _ (by simp only [hBf, Bool.or_false, beq_iff_eq]; exact hA)]
          rw [Function.comp_def]
          rw [hfun] at hfind
          exact hfind
        · simp only [scanAux]
          rw [hp2]
          rw [if_neg hA, hBf, if_neg Bool.false_ne_true]
          exact heq

theorem scanAux_full (s : MState) (i : Nat) (hi : i < s.children.length) (hpos : s.pos = i) :
    scanAux i s.children.length s =
      match nextHolder s.children i with
      | some k => { s with pos := k, children := updAt s.children k (fun c => { c with cw := true }) }
      | none => { s with pos := i, locked := false } := by
  have hreach : (s.pos + s.children.length) % s.children.length = i := by
    rw [hpos, Nat.add_mod_right, Nat.mod_eq_of_lt hi]
  obtain ⟨k, hfind, heq⟩ :=
    scanAux_go s.children.length s.children.length s i hi (hpos ▸ hi) (by omega) le_rfl hreach
  rw [hpos] at hfind
  unfold nextHolder scanOrder
  rw [hfind, heq]
  by_cases hk : k = i
  · subst hk; simp
  · simp [hk]

theorem nextHolder_some (c : List Slot) (i k : Nat) (hn : 0 < c.length)
    (h : nextHolder c i = some k) :
    k ≠ i ∧ k < c.length ∧ (c.getD k default).rw = true := by
  unfold nextHolder at h
  cases hfind : (scanOrder c.length i).find? (fun x => x == i || (c.getD x default).rw) with
  | none => rw [hfind] at h; exact absurd h (by simp)
  | some x =>
    rw [hfind] at h
    have h' : (if x = i then none else some x : Option Nat) = some k := h
    by_cases hx : x = i
    · rw [if_pos hx] at h'; exact absurd h' (by simp)
    · rw [if_neg hx] at h'
      obtain rfl : x = k := by simpa using h'
      have hpred := List.find?_some hfind
      have hmem := List.mem_of_find?_eq_some hfind
      refine ⟨hx, ?_, ?_⟩
      · unfold scanOrder at hmem
        simp only [List.mem_map, List.mem_range] at hmem
        obtain ⟨t, _, rfl⟩ := hmem
        exact Nat.mod_lt _ hn
      · simp only [Bool.or_eq_true, beq_iff_eq] at hpred
        exact hpred.resolve_left hx

theorem mutexHandler_release (s : MState) (j : Nat) (hj : j < s.children.length)
    (hcw : (s.children.getD j default).cw = true) (hpos : s.pos = j) :
    mutexHandler s j false =
      match nextHolder (updAt s.children j (fun c => { c with cw := false })) j with
      | some k =>
          { children := updAt (updAt s.children j (fun c => { c with cw := false })) k
              (fun c => { c with cw := true }),
            pos := k, locked := s.locked }
      | none =>
          { children := updAt s.children j (fun c => { c with cw := false }),
            pos := j, locked := false } := by
  unfold mutexHandler
  rw [hcw]
  simp only [Bool.false_and, Bool.not_false, Bool.true_and, if_neg Bool.false_ne_true,
    if_pos rfl, ite_true]
  have hlen : (updAt s.children j (fun c => { c with cw := false })).length = s.children.length :=
    length_updAt _ _ _
  rw [hlen]
  have hfull := scanAux_full
    { s with children := updAt s.children j (fun c => { c with cw := false }) }
    j (by simp only [hlen]; exact hj) hpos
  simp only [hlen] at hfull
  rw [hfull]

theorem cw_updRw (l : List Slot) (j k : Nat) (w : Bool) (hj : j < l.length) :
    ((updAt l j (fun c => { c with rw := w })).getD k default).cw = (l.getD k default).cw := by
  by_cases hk : k = j
  · subst hk; rw [getD_updAt_self _ _ _ hj]
  · rw [getD_updAt_ne _ _ _ _ hk]

theorem minv_updRw (s : MState) (j : Nat) (w : Bool) (h : MInv s) (hj : j < s.children.length) :
    MInv { s with children := updAt s.children j (fun c => { c with rw := w }) } := by
  obtain ⟨⟨h1, h2, h3⟩, h4⟩ := h
  refine ⟨⟨?_, ?_, ?_⟩, ?_⟩
  · intro h0; rw [length_updAt] at h0; exact h1 h0
  · intro h0; rw [length_updAt] at h0 ⊢; exact h2 h0
  · intro hl
    obtain ⟨ha, hb⟩ := h3 hl
    refine ⟨by rw [length_updAt]; exact ha, ?_⟩
    intro k hk
    rw [length_updAt] at hk
    rw [cw_updRw _ _ _ _ hj]
    exact hb k hk
  · intro hl k hk
    rw [length_updAt] at hk
    rw [cw_updRw _ _ _ _ hj]
    exact h4 hl k hk

theorem minv_mk_locked (c : List Slot) (k : Nat) (hk : k < c.length)
    (hcw : ∀ m < c.length, (c.getD m default).cw = false) :
    MInv { children := updAt c k (fun x => { x with cw := true }), pos := k, locked := true } := by
  refine ⟨⟨?_, ?_, ?_⟩, ?_⟩
  · intro h0; rw [length_updAt] at h0; omega
  · intro _; rw [length_updAt]; exact hk
  · intro _
    refine ⟨by rw [length_updAt]; omega, ?_⟩
    intro m hm
    rw [length_updAt] at hm
    by_cases hmk : m = k
    · subst hmk; rw [getD_updAt_self _ _ _ hk]; simp
    · rw [getD_updAt_ne _ _ _ _ hmk, hcw m hm]; simp [hmk]
  · intro hl; exact absurd hl (by simp)

theorem minv_mk_unlocked (c : List Slot) (p : Nat) (hp : c.length = 0 → p = 0)
    (hp2 : 0 < c.length → p < c.length)
    (hcw : ∀ m < c.length, (c.getD m default).cw = false) :
    MInv { children := c, pos := p, locked := false } := by
  refine ⟨⟨hp, hp2, ?_⟩, fun _ => hcw⟩
  intro hl; exact absurd hl (by simp)

theorem pushWant_grant (s : MState) (j : Nat) (hl : s.locked = false) :
    pushWant s j true =
      { children := updAt (updAt s.children j (fun c => { c with rw := true })) j
          (fun c => { c with cw := true }),
        pos := j, locked := true } := by
  unfold pushWant mutexHandler
  simp [hl]

theorem pushWant_pending (s : MState) (j : Nat) (hl : s.locked = true) :
    pushWant s j true = { s with children := updAt s.children j (fun c => { c with rw := true }) } := by
  unfold pushWant mutexHandler
  simp [hl]

theorem pushWant_idle (s : MState) (j : Nat) (hj : j < s.children.length)
    (hcw : (s.children.getD j default).cw = false) :
    pushWant s j false = { s with children := updAt s.children j (fun c => { c with rw := false }) } := by
  unfold pushWant mutexHandler
  have hc : ((updAt s.children j (fun c => { c with rw := false })).getD j default).cw = false := by
    rw [cw_updRw _ _ _ _ hj]; exact hcw
  rw [hc]
  simp only [Bool.false_and, Bool.not_false, Bool.true_and, if_neg Bool.false_ne_true]

theorem pushWant_release (s : MState) (j : Nat) (hj : j < s.children.length)
    (hcw : (s.children.getD j default).cw = true) (hpos : s.pos = j) (hl : s.locked = true) :
    pushWant s j false = releaseSpec s j := by
  unfold pushWant releaseSpec
  have hlen0 : (updAt s.children j (fun c => { c with rw := false })).length = s.children.length :=
    length_updAt _ _ _
  have hcw0 : ((updAt s.children j (fun c => { c with rw := false })).getD j default).cw = true := by
    rw [cw_updRw _ _ _ _ hj]; exact hcw
  rw [hl]
  exact mutexHandler_release
    { children := updAt s.children j (fun c => { c with rw := false }), pos := s.pos, locked := true }
    j (by simp only [hlen0]; exact hj) hcw0 hpos

theorem minv_release (s : MState) (j : Nat) (h : MInv s) (hj : j < s.children.length)
    (hl : s.locked = true) (hpos : s.pos = j) :
    MInv (releaseSpec s j) := by
  obtain ⟨⟨h1, h2, h3⟩, h4⟩ := h
  have hn0 : 0 < s.children.length := by omega
  unfold releaseSpec
  have hlen1 : (releaseCleared s j).length = s.children.length := by
    rw [releaseCleared, length_updAt, length_updAt]
  have hcwc1 : ∀ k < s.children.length,
      ((releaseCleared s j).getD k default).cw = false := by
    intro k hk
    unfold releaseCleared
    by_cases hkj : k = j
    · subst hkj
      rw [getD_updAt_self _ _ _ (by rw [length_updAt]; exact hj)]
    · rw [getD_updAt_ne _ _ _ _ hkj, cw_updRw _ _ _ _ hj]
      have hiff := (h3 hl).2 k hk
      cases hc : (s.children.getD k default).cw
      · rfl
      · exact absurd (hpos ▸ hiff.mp hc) hkj
  cases hnh : nextHolder (releaseCleared s j) j with
  | some k =>
    obtain ⟨hki, hklt, hkrw⟩ := nextHolder_some _ j k (by rw [hlen1]; exact hn0) hnh
    rw [hlen1] at hklt
    exact minv_mk_locked _ k (by rw [hlen1]; exact hklt) (by intro m hm; rw [hlen1] at hm; exact hcwc1 m hm)
  | none =>
    exact minv_mk_unlocked _ j (by rw [hlen1]; omega) (by rw [hlen1]; intro; exact hj) (by intro m hm; rw [hlen1] at hm; exact hcwc1 m hm)

theorem minv_push (s : MState) (j : Nat) (w : Bool) (h : MInv s) (hj : j < s.children.length) :
    MInv (pushWant s j w) := by
  cases w with
  | false =>
    by_cases hcw : (s.children.getD j default).cw = true
    · have hl : s.locked = true := by
        cases hlc : s.locked
        · exact absurd hcw (by rw [h.2 hlc j hj]; simp)
        · rfl
      have hpos : s.pos = j := (((h.1.2.2 hl).2 j hj).mp hcw).symm
      rw [pushWant_release s j hj hcw hpos hl]
      exact minv_release s j h hj hl hpos
    · have hcwf : (s.children.getD j default).cw = false := by
        cases hc : (s.children.getD j default).cw
        · rfl
        · exact absurd hc hcw
      rw [pushWant_idle s j hj hcwf]
      exact minv_updRw s j false h hj
  | true =>
    cases hl : s.locked with
    | false =>
      rw [pushWant_grant s j hl]
      exact minv_mk_locked _ j (by rw [length_updAt]; exact hj)
        (by intro m hm
            rw [length_updAt] at hm
            rw [cw_updRw _ _ _ _ hj]
            exact h.2 hl m hm)
    | true =>
      rw [pushWant_pending s j hl]
      exact minv_updRw s j true h hj

theorem attachChild_eq (s : MState) :
    attachChild s = { s with children := s.children ++ [⟨false, false⟩] } := by
  simp only [attachChild, mutexHandler]
  have hcw : ((s.children ++ [(⟨false, false⟩ : Slot)]).getD s.children.length default).cw = false := by
    rw [List.getD_append_right _ _ _ _ le_rfl]
    simp
  rw [hcw]
  simp only [Bool.false_and, Bool.not_false, Bool.true_and, if_neg Bool.false_ne_true]

theorem minv_attach (s : MState) (h : MInv s) : MInv (attachChild s) := by
  obtain ⟨⟨h1, h2, h3⟩, h4⟩ := h
  rw [attachChild_eq]
  refine ⟨⟨?_, ?_, ?_⟩, ?_⟩
  · intro h0; simp at h0
  · intro _
    simp only [List.length_append, List.length_cons, List.length_nil]
    by_cases hn : s.children.length = 0
    · rw [h1 hn]; omega
    · have := h2 (by omega); omega
  · intro hl
    obtain ⟨ha, hb⟩ := h3 hl
    have hp := h2 ha
    refine ⟨by simp only [List.length_append, List.length_cons, List.length_nil]; omega, ?_⟩
    intro k hk
    simp only [List.length_append, List.length_cons, List.length_nil] at hk
    by_cases hkn : k < s.children.length
    · rw [List.getD_append _ _ _ _ hkn]; exact hb k hkn
    · have hk' : k = s.children.length := by omega
      subst hk'
      rw [List.getD_append_right _ _ _ _ le_rfl]
      simp only [Nat.sub_self, List.getD_cons_zero]
      constructor
      · intro hh; exact absurd hh (by simp)
      · intro hh; omega
  · intro hl k hk
    simp only [List.length_append, List.length_cons, List.length_nil] at hk
    by_cases hkn : k < s.children.length
    · rw [List.getD_append _ _ _ _ hkn]; exact h4 hl k hkn
    · have hk' : k = s.children.length := by omega
      subst hk'
      rw [List.getD_append_right _ _ _ _ le_rfl]
      simp

theorem minv_pop (s1 : MState) (j : Nat) (h : MInv s1) (hj : j < s1.children.length)
    (hlock : s1.locked = true → s1.pos ≠ j) :
    MInv { children := removeAt s1.children j,
           pos := if (if j < s1.pos then s1.pos - 1 else s1.pos) = (removeAt s1.children j).length
                  then 0 else (if j < s1.pos then s1.pos - 1 else s1.pos),
           locked := s1.locked } := by
  obtain ⟨⟨h1, h2, h3⟩, h4⟩ := h
  have hlen2 : (removeAt s1.children j).length = s1.children.length - 1 := length_removeAt _ _ hj
  have hn0 : 0 < s1.children.length := by omega
  have hplt : s1.pos < s1.children.length := h2 hn0
  unfold MInv posInv
  dsimp only
  refine ⟨⟨?_, ?_, ?_⟩, ?_⟩
  · intro h0
    rw [hlen2] at h0 ⊢
    split_ifs <;> omega
  · intro h0
    rw [hlen2] at h0 ⊢
    split_ifs <;> omega
  · intro hl
    have hpj := hlock hl
    obtain ⟨_, hiff⟩ := h3 hl
    refine ⟨by rw [hlen2]; omega, ?_⟩
    intro m hm
    rw [hlen2] at hm
    by_cases hmj : m < j
    · rw [getD_removeAt_lt _ _ _ hmj, hiff m (by omega), hlen2]
      split_ifs <;> omega
    · rw [getD_removeAt_ge _ _ _ (by omega), hiff (m+1) (by omega), hlen2]
      split_ifs <;> omega
  · intro hl m hm
    rw [hlen2] at hm
    by_cases hmj : m < j
    · rw [getD_removeAt_lt _ _ _ hmj]; exact h4 hl m (by omega)
    · rw [getD_removeAt_ge _ _ _ (by omega)]; exact h4 hl (m+1) (by omega)

theorem minv_detach (s : MState) (j : Nat) (h : MInv s) (hj : j < s.children.length) :
    MInv (detachChild s j) := by
  simp only [detachChild]
  by_cases hcase : s.locked = true ∧ (s.children.getD j default).cw = true
  · obtain ⟨hl, hcw⟩ := hcase
    have hpos : s.pos = j := (((h.1.2.2 hl).2 j hj).mp hcw).symm
    rw [hl, hcw]
    simp only [Bool.and_self, if_pos rfl, ite_true]
    rw [mutexHandler_release s j hj hcw hpos]
    have hlenc : (updAt s.children j (fun c => { c with cw := false })).length
        = s.children.length := length_updAt _ _ _
    have hcwall : ∀ m < s.children.length,
        ((updAt s.children j (fun c => { c with cw := false })).getD m default).cw = false := by
      intro m hm
      by_cases hmj : m = j
      · subst hmj; rw [getD_updAt_self _ _ _ hj]
      · rw [getD_updAt_ne _ _ _ _ hmj]
        have hiff := (h.1.2.2 hl).2 m hm
        cases hc : (s.children.getD m default).cw
        · rfl
        · exact absurd (hpos ▸ hiff.mp hc) hmj
    cases hnh : nextHolder (updAt s.children j (fun c => { c with cw := false })) j with
    | some k =>
      obtain ⟨hki, hklt, _⟩ := nextHolder_some _ j k (by rw [hlenc]; omega) hnh
      rw [hlenc] at hklt
      rw [hl]
      exact minv_pop
        { children := updAt (updAt s.children j (fun c => { c with cw := false })) k
            (fun c => { c with cw := true }),
          pos := k, locked := true }
        j
        (minv_mk_locked _ k (by rw [hlenc]; exact hklt)
          (by intro m hm; rw [hlenc] at hm; exact hcwall m hm))
        (by simp only [length_updAt, hlenc]; exact hj)
        (by intro _; exact hki)
    | none =>
      exact minv_pop
        { children := updAt s.children j (fun c => { c with cw := false }),
          pos := j, locked := false }
        j
        (minv_mk_unlocked _ j (by rw [hlenc]; omega) (by rw [hlenc]; intro; exact hj)
          (by intro m hm; rw [hlenc] at hm; exact hcwall m hm))
        (by rw [hlenc]; exact hj)
        (by intro hfalse; exact absurd hfalse (by simp))
  · have hb : (s.locked && (s.children.getD j default).cw) = false := by
      cases hlc : s.locked
      · simp
      · cases hc : (s.children.getD j default).cw
        · simp
        · exact absurd ⟨hlc, hc⟩ hcase
    rw [hb]
    simp only [if_neg Bool.false_ne_true]
    refine minv_pop s j h hj ?_
    intro hl hpj
    have hcwf : (s.children.getD j default).cw = false := by
      cases hc : (s.children.getD j default).cw
      · rfl
      · exact absurd ⟨hl, hc⟩ hcase
    have hiff := (h.1.2.2 hl).2 j hj
    rw [hcwf] at hiff
    exact absurd (hiff.mpr hpj.symm) (by simp)

theorem minv_step {s t : MState} (h : MInv s) (hst : Step s t) : MInv t := by
  cases hst with
  | attach => exact minv_attach s h
  | push j w hj => exact minv_push s j w h hj
  | detach j hj => exact minv_detach s j h hj

theorem minv_init : MInv initState := by decide

theorem reachable_minv {s : MState} (h : Reachable s) : MInv s := by
  induction h with
  | init => exact minv_init
  | step _ hst ih => exact minv_step ih hst


/-! ## Claim theorems -/

/-- C1: for every reachable state of a RoundRobinMutex coordinator —
reachable by any sequence of attach_child calls, requester want pushes on
the wired sync ports, and detaches of children — at most one child slot
has granted = true (both wants of its sync pair true) at any time. -/
theorem c1_mutex_mutual_exclusion : ∀ s : MState, Reachable s → atMostOneGranted s := by
  intro s hs
  obtain ⟨⟨h1, h2, h3⟩, h4⟩ := reachable_minv hs
  intro j hj k hk hgj hgk
  rw [Bool.and_eq_true] at hgj hgk
  cases hl : s.locked
  · exact absurd hgj.1 (by rw [h4 hl j hj]; simp)
  · have hj' := ((h3 hl).2 j hj).mp hgj.1
    have hk' := ((h3 hl).2 k hk).mp hgk.1
    omega

/-- C1 witness: the invariant instantiated at a concrete reachable state in
which child 0 holds the lock. -/
theorem c1_mutex_mutual_exclusion_witness : atMostOneGranted (pushWant demo3 0 true) :=
  c1_mutex_mutual_exclusion _
    (Reachable.step
      (Reachable.step
        (Reachable.step
          (Reachable.step Reachable.init (Step.attach _))
          (Step.attach _))
        (Step.attach _))
      (Step.push _ 0 true (by decide)))

/-- C2: with children A, B, C all requesting while the lock is free, grants
go A, then on each release the next requesting slot in order (B, C, then
wrapping back to A), and the final release with no waiter returns the scan
to the releasing slot's own index and clears locked; in general, a release
push on the holding slot j scans forward from the slot immediately after
`pos` (= j), grants the first slot whose requester want is true, and
unlocks only when the scan returns to j. -/
theorem c2_mutex_fairness :
    (reqAll3 = ⟨[⟨true, true⟩, ⟨false, true⟩, ⟨false, true⟩], 0, true⟩ ∧
     pushWant reqAll3 0 false = ⟨[⟨false, false⟩, ⟨true, true⟩, ⟨false, true⟩], 1, true⟩ ∧
     pushWant (pushWant reqAll3 0 false) 1 false =
       ⟨[⟨false, false⟩, ⟨false, false⟩, ⟨true, true⟩], 2, true⟩ ∧
     pushWant (pushWant (pushWant reqAll3 0 false) 1 false) 0 true =
       ⟨[⟨false, true⟩, ⟨false, false⟩, ⟨true, true⟩], 2, true⟩ ∧
     pushWant (pushWant (pushWant (pushWant reqAll3 0 false) 1 false) 0 true) 2 false =
       ⟨[⟨true, true⟩, ⟨false, false⟩, ⟨false, false⟩], 0, true⟩ ∧
     pushWant (pushWant (pushWant (pushWant (pushWant reqAll3 0 false) 1 false) 0 true) 2 false)
         0 false =
       ⟨[⟨false, false⟩, ⟨false, false⟩, ⟨false, false⟩], 0, false⟩) ∧
    (∀ (s : MState) (j : Nat), MInv s → j < s.children.length → s.locked = true →
      (s.children.getD j default).cw = true → pushWant s j false = releaseSpec s j) := by
  constructor
  · decide
  · intro s j hm hj hl hcw
    have hpos : s.pos = j := (((hm.1.2.2 hl).2 j hj).mp hcw).symm
    exact pushWant_release s j hj hcw hpos hl

/-- C2 witness: the general release rule applied to the concrete state
where A holds the lock and B, C are waiting. -/
theorem c2_mutex_fairness_witness : pushWant reqAll3 0 false = releaseSpec reqAll3 0 :=
  c2_mutex_fairness.2 reqAll3 0 (by decide) (by decide) (by decide) (by decide)

/-- C3: attaching two fresh sync ports (both wants at the default false)
fires each owning actor's handler exactly once with false, and afterwards
granted is false on both sides. -/
theorem c3_sync_handshake_bootstrap :
    syncAttach freshPairW 0 (.syncP 1) =
      (none, ⟨[], [], [], [], [⟨some 1, false, [false]⟩, ⟨some 0, false, [false]⟩]⟩) ∧
    syncVal (syncAttach freshPairW 0 (.syncP 1)).2 0 = some false ∧
    syncVal (syncAttach freshPairW 0 (.syncP 1)).2 1 = some false := by decide

/-- C4: attaching a fresh value input to a value output with current value
v delivers v to the new input's handler exactly once with no further push,
leaves the output's stored value unchanged, and leaves the previously
attached input untouched. -/
theorem c4_value_attach_replay : ∀ (v : Int) (L0 L1 : List Int),
    valOutAttach ⟨[], [], [⟨v, [0]⟩], [⟨some 0, L0⟩, ⟨none, L1⟩], []⟩ 0 (.valIn 1) =
      (none, ⟨[], [], [⟨v, [0, 1]⟩], [⟨some 0, L0⟩, ⟨some 0, L1 ++ [v]⟩], []⟩) := by
  intro v L0 L1; rfl

/-- C5: on an expiry whose advanced next_expiry is already strictly in the
past, the timer resets next_expiry to now + interval, emits exactly one
late event carrying the wake time now, schedules exactly one wake at the
corrected expiry, and emits exactly one trigger event. -/
theorem c5_timer_late_wake : ∀ now next interval : Int, next + interval < now →
    onExpire now next interval =
      ⟨now + interval, [now], [now + interval], 1⟩ := by
  intro now next interval h
  simp only [onExpire]
  rw [if_pos h]

/-- C5 witness: a concrete late expiry (next 3, interval 2, woken at 10). -/
theorem c5_timer_late_wake_witness : onExpire 10 3 2 = ⟨10 + 2, [10], [10 + 2], 1⟩ :=
  c5_timer_late_wake 10 3 2 (by decide)

/-- C6 counterexample: a requester whose want is true at attach time; the
coordinator-side handler (the log of the slot's own port 0) fires with
false — the fresh slot's own want — not with the requester's initial want. -/
theorem c6_bootstrap_want_cex :
    (handshakeW.syncs.getD 1 default).want = true ∧
    ((syncAttach handshakeW 0 (.syncP 1)).2.syncs.getD 0 default).log
      ≠ [(handshakeW.syncs.getD 1 default).want] ∧
    ((syncAttach handshakeW 0 (.syncP 1)).2.syncs.getD 0 default).log = [false] := by decide

/-- C6 amended: attach_child appends a fresh slot (both wants false) at the
end of children, and the attach handshake fires the coordinator's per-slot
handler exactly once with false — the fresh slot's own want — while
overwriting the requester's want with false, whatever it was; the
requester's handler also fires once with false. -/
theorem c6_attach_child_bootstrap :
    (∀ s : MState, attachChild s = { s with children := s.children ++ [⟨false, false⟩] }) ∧
    (∀ (wv : Bool) (L : List Bool),
      syncAttach ⟨[], [], [], [], [⟨none, false, []⟩, ⟨none, wv, L⟩]⟩ 0 (.syncP 1) =
        (none, ⟨[], [], [], [], [⟨some 1, false, [false]⟩, ⟨some 0, false, L ++ [false]⟩]⟩)) := by
  refine ⟨attachChild_eq, ?_⟩
  intro wv L
  rfl

/-- C7 counterexample: two children, slot 0 requests while free; the code
grants with pos = 0 — the granted slot's own index — not (0+1) mod 2 as
the claim states. -/
theorem c7_grant_pos_cex :
    (pushWant demo2 0 true).locked = true ∧
    (pushWant demo2 0 true).children.getD 0 default = ⟨true, true⟩ ∧
    (pushWant demo2 0 true).pos ≠ (0 + 1) % (pushWant demo2 0 true).children.length := by decide

/-- C7 amended: a want = true push on slot j while the lock is free grants
immediately: pos is set to j itself (the granted slot's index, not j + 1),
the locked value output is set true, and slot.mutex = true is pushed
(the slot's coordinator-side want becomes true, informing the requester). -/
theorem c7_grant_immediate : ∀ (s : MState) (j : Nat), j < s.children.length →
    s.locked = false →
    pushWant s j true =
      { children := updAt (updAt s.children j (fun c => { c with rw := true })) j
          (fun c => { c with cw := true }),
        pos := j, locked := true } := by
  intro s j _ hl
  exact pushWant_grant s j hl

/-- C7 witness: the grant rule at slot 0 of the two-child coordinator. -/
theorem c7_grant_immediate_witness :
    pushWant demo2 0 true =
      { children := updAt (updAt demo2.children 0 (fun c => { c with rw := true })) 0
          (fun c => { c with cw := true }),
        pos := 0, locked := true } :=
  c7_grant_immediate demo2 0 (by decide) (by decide)

/-- C8 counterexample: attaching a second value output onto the
already-wired value input 0 of rewiredW raises nothing — the attach
succeeds and silently re-points the input's upstream (and delivers the new
output's value), instead of failing with an already-connected error. -/
theorem c8_already_connected_cex :
    (valOutAttach rewiredW 1 (.valIn 0)).1 = none ∧
    (valOutAttach rewiredW 1 (.valIn 0)).2.valIns.getD 0 default = ⟨some 1, [7]⟩ := by decide

/-- C8 amended: only a sync port whose own peer is already set rejects an
attach (with the already-connected error, before any mutation); attaching
onto an already-wired value input never fails, and a sync attach whose
initiator is free succeeds regardless of the target's wiring. -/
theorem c8_already_connected_checks :
    (∀ (w : World) (s : Nat) (t : PortRef) (q : Nat),
      (w.syncs.getD s default).peer = some q →
      syncAttach w s t = (some .alreadyConnected, w)) ∧
    (∀ (w : World) (o i : Nat), (valOutAttach w o (.valIn i)).1 = none) ∧
    (∀ (w : World) (s p : Nat), (w.syncs.getD s default).peer = none →
      (syncAttach w s (.syncP p)).1 = none) := by
  refine ⟨?_, ?_, ?_⟩
  · intro w s t q h
    unfold syncAttach
    rw [h]
    rfl
  · intro w o i
    rfl
  · intro w s p h
    unfold syncAttach
    rw [h]
    rfl

/-- C8 witness: the three amended clauses at concrete graphs — a wired sync
port rejects, a wired value input silently accepts, a free sync port
attaches onto an already-wired target without error. -/
theorem c8_already_connected_checks_witness :
    syncAttach wiredPairW 0 (.syncP 1) = (some .alreadyConnected, wiredPairW) ∧
    (valOutAttach rewiredW 1 (.valIn 0)).1 = none ∧
    (syncAttach freshPairW 0 (.syncP 1)).1 = none :=
  ⟨c8_already_connected_checks.1 wiredPairW 0 (.syncP 1) 1 (by decide),
   c8_already_connected_checks.2.1 rewiredW 1 0,
   c8_already_connected_checks.2.2 freshPairW 0 1 (by decide)⟩

/-- C9: an attach across port disciplines — event output to non-event
input, value output to non-value input, or a (free) sync port to a
non-sync port — fails with the kind-mismatch error and returns the graph
unchanged. -/
theorem c9_kind_mismatch :
    (∀ (w : World) (o : Nat) (t : PortRef), isEvIn t = false →
      evOutAttach w o t = (some .kindMismatch, w)) ∧
    (∀ (w : World) (o : Nat) (t : PortRef), isValIn t = false →
      valOutAttach w o t = (some .kindMismatch, w)) ∧
    (∀ (w : World) (s : Nat) (t : PortRef), (w.syncs.getD s default).peer = none →
      isSyncP t = false →
      syncAttach w s t = (some .kindMismatch, w)) := by
  refine ⟨?_, ?_, ?_⟩
  · intro w o t ht
    cases t with
    | evOut i => rfl
    | evIn i => simp [isEvIn] at ht
    | valOut i => rfl
    | valIn i => rfl
    | syncP i => rfl
  · intro w o t ht
    cases t with
    | evOut i => rfl
    | evIn i => rfl
    | valOut i => rfl
    | valIn i => simp [isValIn] at ht
    | syncP i => rfl
  · intro w s t hp ht
    unfold syncAttach
    rw [hp]
    cases t with
    | evOut i => rfl
    | evIn i => rfl
    | valOut i => rfl
    | valIn i => rfl
    | syncP i => simp [isSyncP] at ht

/-- C9 witness: the three mismatch clauses at concrete ports of mixedW. -/
theorem c9_kind_mismatch_witness :
    evOutAttach mixedW 0 (.valIn 0) = (some .kindMismatch, mixedW) ∧
    valOutAttach mixedW 0 (.evIn 0) = (some .kindMismatch, mixedW) ∧
    syncAttach mixedW 0 (.valOut 0) = (some .kindMismatch, mixedW) :=
  ⟨c9_kind_mismatch.1 mixedW 0 (.valIn 0) (by decide),
   c9_kind_mismatch.2.1 mixedW 0 (.evIn 0) (by decide),
   c9_kind_mismatch.2.2 mixedW 0 (.valOut 0) (by decide) (by decide)⟩

/-- C10: from any reachable state, every coordinator operation (attach of a
child, a requester want push on a wired slot, a detach of a wired slot)
preserves the invariant: pos = 0 on an empty coordinator, pos inside the
children otherwise, and while locked the slot at pos is exactly the unique
slot whose coordinator-side want is true. -/
theorem c10_pos_invariant : ∀ s t : MState, Reachable s → Step s t → posInv s ∧ posInv t := by
  intro s t hs hst
  have h1 := reachable_minv hs
  exact ⟨h1.1, (minv_step h1 hst).1⟩

/-- C10 witness: the invariant before and after granting slot 0 of the
three-child coordinator. -/
theorem c10_pos_invariant_witness : posInv demo3 ∧ posInv (pushWant demo3 0 true) :=
  c10_pos_invariant demo3 (pushWant demo3 0 true)
    (Reachable.step
      (Reachable.step
        (Reachable.step Reachable.init (Step.attach _))
        (Step.attach _))
      (Step.attach _))
    (Step.push _ 0 true (by decide))
